import Mathlib

/-!
Verification of the RAG_QA cloud-storage QA system.

Shallow embedding of the Python sources:
  * src/utils/json_retriever.py  (filter/ranking engine)
  * src/utils/semantic_parser.py (malformed-payload fallback)
  * src/evaluation/evaluate_accuracy.py (evaluator metric functions and the
    aggregate summary computation)

Python's dynamically typed JSON-like values are modelled by the inductive
type `JVal`; fallible Python code is modelled in `Except PyErr`.  Numbers
are modelled as rationals (the prices and sizes in this system are short
decimal literals, where Python float arithmetic is exact).
-/

namespace RagQA

attribute [local semireducible] Rat.add Rat.mul Rat.inv

/-- Python-style JSON values.  Dictionaries are association lists with
string keys (JSON objects always have string keys); Python dicts have
unique keys and lookups below use the first binding. -/
inductive JVal : Type where
  | null : JVal
  | num : ℚ → JVal
  | str : String → JVal
  | list : List JVal → JVal
  | dict : List (String × JVal) → JVal

/-- The Python exceptions that the embedded code can raise. -/
inductive PyErr : Type where
  | typeError : PyErr
  | keyError : PyErr
  | attributeError : PyErr
  | valueError : PyErr
  | indexError : PyErr
  | zeroDivisionError : PyErr
deriving DecidableEq

/-- First-binding association-list lookup (Python dict access). -/
def lookup? {α : Type} : List (String × α) → String → Option α
  | [], _ => none
  | (k', v) :: rest, k => if k' = k then some v else lookup? rest k

def lookupD {α : Type} (kvs : List (String × α)) (k : String) (d : α) : α :=
  (lookup? kvs k).getD d

/-- Python truthiness of a value (`if v:`). -/
def truthy : JVal → Bool
  | .null => false
  | .num q => if q = 0 then false else true
  | .str s => if s = "" then false else true
  | .list xs => !xs.isEmpty
  | .dict kvs => !kvs.isEmpty

def isNull : JVal → Bool
  | .null => true
  | _ => false

/-- Python `==`.  Only scalar comparisons occur in this pipeline (platform
names and plan cycles, which are strings or None); container comparison
does not occur and is modelled as False. -/
def pyEq : JVal → JVal → Bool
  | .null, .null => true
  | .num a, .num b => if a = b then true else false
  | .str a, .str b => if a = b then true else false
  | _, _ => false

/-- `d[k]` : KeyError when missing, TypeError when not a dict. -/
def getItem : JVal → String → Except PyErr JVal
  | .dict kvs, k =>
      match lookup? kvs k with
      | some v => .ok v
      | none => .error .keyError
  | _, _ => .error .typeError

/-- `d.get(k)` (default None): AttributeError when not a dict. -/
def dictGet : JVal → String → Except PyErr JVal
  | .dict kvs, k => .ok (lookupD kvs k .null)
  | _, _ => .error .attributeError

/-- `d.get(k, default)` : AttributeError when not a dict. -/
def dictGetD : JVal → String → JVal → Except PyErr JVal
  | .dict kvs, k, d => .ok (lookupD kvs k d)
  | _, _, _ => .error .attributeError

def asList : JVal → Except PyErr (List JVal)
  | .list xs => .ok xs
  | _ => .error .typeError

def asString : JVal → Except PyErr String
  | .str s => .ok s
  | _ => .error .typeError

/-- Python `str.lower()` on the ASCII texts this system handles. -/
def toLowerS (s : String) : String :=
  String.mk (s.data.map Char.toLower)

/-- `v.lower()` : AttributeError when not a string. -/
def pyLower : JVal → Except PyErr String
  | .str s => .ok (toLowerS s)
  | _ => .error .attributeError

/-- `l[0]` : IndexError on an empty list, TypeError otherwise. -/
def pyIndex0 : JVal → Except PyErr JVal
  | .list (x :: _) => .ok x
  | .list [] => .error .indexError
  | _ => .error .typeError

/-- Characters Python `str.strip()` and `\s` treat as whitespace. -/
def isPySpace (c : Char) : Bool :=
  c = ' ' || c = '\t' || c = '\n' || c = '\r' || c = '\x0b' || c = '\x0c'

/-- Python word characters (`\w`) in the lower-cased ASCII texts used here. -/
def isWordChar (c : Char) : Bool :=
  c.isAlphanum || c = '_'

def pyStripL (cs : List Char) : List Char :=
  ((cs.dropWhile isPySpace).reverse.dropWhile isPySpace).reverse

def pyStrip (s : String) : String :=
  String.mk (pyStripL s.data)

def startsWithL : List Char → List Char → Bool
  | [], _ => true
  | _ :: _, [] => false
  | a :: as, b :: bs => (if a = b then true else false) && startsWithL as bs

def substrAux (n : List Char) : List Char → Bool
  | [] => n.isEmpty
  | h :: t => startsWithL n (h :: t) || substrAux n t

/-- Python `needle in hay` on strings (the empty needle always matches). -/
def substr (needle hay : String) : Bool :=
  substrAux needle.data hay.data

/-- Numeric value of a digit run. -/
def natVal (cs : List Char) : ℕ :=
  cs.foldl (fun n c => n * 10 + (c.toNat - '0'.toNat)) 0

/-- Python `float()` on a string: models plain decimal literals (optional
surrounding whitespace, optional sign, digits with at most one point) —
the numeric forms occurring in this system's data.  Returns none on
anything else (ValueError). -/
def pyFloatOfString (s : String) : Option ℚ :=
  let cs := pyStripL s.data
  let sgnCs : ℚ × List Char :=
    match cs with
    | '-' :: r => (-1, r)
    | '+' :: r => (1, r)
    | r => (1, r)
  let sgn := sgnCs.1
  let body := sgnCs.2
  let ip := body.takeWhile Char.isDigit
  let rest := body.drop ip.length
  match rest with
  | [] => if ip.isEmpty then none else some (sgn * (natVal ip : ℚ))
  | '.' :: fr =>
      let fp := fr.takeWhile Char.isDigit
      if (fr.drop fp.length).isEmpty && !(ip.isEmpty && fp.isEmpty) then
        some (sgn * ((natVal ip : ℚ) + (natVal fp : ℚ) / (10 : ℚ) ^ fp.length))
      else none
  | _ => none

/-- Python `float(v)` on a JSON value. -/
def pyFloat : JVal → Except PyErr ℚ
  | .num q => .ok q
  | .str s =>
      match pyFloatOfString s with
      | some q => .ok q
      | none => .error .valueError
  | _ => .error .typeError

/-- `price < bound` where the bound comes from the query (Python raises
TypeError when comparing a float with a non-number). -/
def pyLtQJ (q : ℚ) : JVal → Except PyErr Bool
  | .num m => .ok (decide (q < m))
  | _ => .error .typeError

/-- `price > bound`, as above. -/
def pyGtQJ (q : ℚ) : JVal → Except PyErr Bool
  | .num m => .ok (decide (m < q))
  | _ => .error .typeError

/-! ## src/utils/json_retriever.py -/

/-- The anchored regex match `re.match(r"([0-9.]+)\s*(TB|GB)", s, re.I)`:
the greedy character-class run can only be the maximal run of digits and
points (no shorter run can be followed by `\s*(TB|GB)`), after which
spaces are skipped and a two-letter unit is required.  Returns the
captured number text and the upper-cased unit. -/
def storage_match (s : String) : Option (String × String) :=
  let cs := s.data
  let ds := cs.takeWhile (fun c => c.isDigit || c = '.')
  if ds.isEmpty then none
  else
    let rest := (cs.drop ds.length).dropWhile isPySpace
    match rest with
    | c1 :: c2 :: _ =>
        if (c1.toLower = 't' || c1.toLower = 'g') && c2.toLower = 'b' then
          some (String.mk ds, if c1.toLower = 't' then "TB" else "GB")
        else none
    | _ => none

/-- `parse_storage_to_gb`: falsy input yields None; a regex match converts
the number (TB multiplies by 1024); unmatched text yields None; `re.match`
on a non-string raises TypeError, and an unparsable captured number (such
as repeated points) raises ValueError from `float`. -/
def parse_storage_to_gb (storage_str : JVal) : Except PyErr (Option ℚ) :=
  if !truthy storage_str then .ok none
  else
    match storage_str with
    | .str s =>
        match storage_match s with
        | none => .ok none
        | some (numTxt, unit) =>
            match pyFloatOfString numTxt with
            | some v => .ok (some (if unit = "TB" then v * 1024 else v))
            | none => .error .valueError
    | _ => .error .typeError

/-- `if storage_cond.get("min") is not None: if st_num is None or
st_num < storage_cond["min"]: continue` — `.ok true` means the plan
passes this bound. -/
def storageMinPass (sc : JVal) (st_num : Option ℚ) : Except PyErr Bool :=
  match dictGet sc "min" with
  | .error e => .error e
  | .ok mn =>
      if isNull mn then .ok true
      else
        match st_num with
        | none => .ok false
        | some v =>
            match getItem sc "min" with
            | .error e => .error e
            | .ok mnI =>
                match pyLtQJ v mnI with
                | .error e => .error e
                | .ok b => .ok (!b)

/-- The symmetric max bound (lines 51-53). -/
def storageMaxPass (sc : JVal) (st_num : Option ℚ) : Except PyErr Bool :=
  match dictGet sc "max" with
  | .error e => .error e
  | .ok mx =>
      if isNull mx then .ok true
      else
        match st_num with
        | none => .ok false
        | some v =>
            match getItem sc "max" with
            | .error e => .error e
            | .ok mxI =>
                match pyGtQJ v mxI with
                | .error e => .error e
                | .ok b => .ok (!b)

/-- Storage stage of `retrieve_info` (lines 45-53): parse the plan's
storage, then when a storage condition is present enforce the min/max
bounds, excluding plans with unknown storage.  `.ok false` models
`continue`. -/
def storageStage (sc plan : JVal) : Except PyErr Bool :=
  match dictGet plan "Storage" with
  | .error e => .error e
  | .ok stJ =>
  match parse_storage_to_gb stJ with
  | .error e => .error e
  | .ok st_num =>
    if truthy sc then
      match storageMinPass sc st_num with
      | .error e => .error e
      | .ok false => .ok false
      | .ok true =>
          match storageMaxPass sc st_num with
          | .error e => .error e
          | .ok false => .ok false
          | .ok true => .ok true
    else .ok true

def mapAsString : List JVal → Except PyErr (List String)
  | [] => .ok []
  | v :: rest =>
      match asString v with
      | .error e => .error e
      | .ok s =>
          match mapAsString rest with
          | .error e => .error e
          | .ok ss => .ok (s :: ss)

/-- Feature stage (lines 56-59): join the plan's features with spaces,
lower-case, and require the lower-cased feature as a substring. -/
def featureStage (feature plan : JVal) : Except PyErr Bool :=
  if truthy feature then
    match dictGetD plan "Features" (.list []) with
    | .error e => .error e
    | .ok fj =>
    match asList fj with
    | .error e => .error e
    | .ok fl =>
    match mapAsString fl with
    | .error e => .error e
    | .ok strs =>
    match pyLower feature with
    | .error e => .error e
    | .ok fLow => .ok (substr fLow (toLowerS (String.intercalate " " strs)))
  else .ok true

/-- `price_cond.get("cycle") and cycle != price_cond["cycle"]`. -/
def cycleSkip (pc cycle : JVal) : Except PyErr Bool :=
  match dictGet pc "cycle" with
  | .error e => .error e
  | .ok pcCycle =>
      if truthy pcCycle then
        match getItem pc "cycle" with
        | .error e => .error e
        | .ok pcc => .ok (!pyEq cycle pcc)
      else .ok false

/-- `price_cond.get("min") is not None and price < price_cond["min"]`. -/
def minSkip (pc : JVal) (price : ℚ) : Except PyErr Bool :=
  match dictGet pc "min" with
  | .error e => .error e
  | .ok mn =>
      if isNull mn then .ok false
      else
        match getItem pc "min" with
        | .error e => .error e
        | .ok mnI => pyLtQJ price mnI

/-- `price_cond.get("max") is not None and price > price_cond["max"]`. -/
def maxSkip (pc : JVal) (price : ℚ) : Except PyErr Bool :=
  match dictGet pc "max" with
  | .error e => .error e
  | .ok mx =>
      if isNull mx then .ok false
      else
        match getItem pc "max" with
        | .error e => .error e
        | .ok mxI => pyGtQJ price mxI

/-- Price-filter loop (lines 62-76): parse each option's price, apply the
cycle/min/max conditions, and keep the survivors in order. -/
def validPricingLoop (pc : JVal) : List JVal → Except PyErr (List JVal)
  | [] => .ok []
  | opt :: rest =>
      match getItem opt "Price" with
      | .error e => .error e
      | .ok priceJ =>
      match pyFloat priceJ with
      | .error e => .error e
      | .ok price =>
      match dictGet opt "PlanType" with
      | .error e => .error e
      | .ok cycle =>
      match cycleSkip pc cycle with
      | .error e => .error e
      | .ok true => validPricingLoop pc rest
      | .ok false =>
      match minSkip pc price with
      | .error e => .error e
      | .ok true => validPricingLoop pc rest
      | .ok false =>
      match maxSkip pc price with
      | .error e => .error e
      | .ok true => validPricingLoop pc rest
      | .ok false =>
          match validPricingLoop pc rest with
          | .error e => .error e
          | .ok v => .ok (opt :: v)

/-- `float(x["Price"])`, the ranking key. -/
def keyOfOpt (o : JVal) : Except PyErr ℚ :=
  match getItem o "Price" with
  | .error e => .error e
  | .ok pj => pyFloat pj

/-- Evaluate a key function on every element, left to right (how Python's
`min` and `list.sort` consume their `key`). -/
def keyed {α : Type} (f : α → Except PyErr ℚ) : List α → Except PyErr (List (ℚ × α))
  | [] => .ok []
  | x :: rest =>
      match f x with
      | .error e => .error e
      | .ok q =>
          match keyed f rest with
          | .error e => .error e
          | .ok ks => .ok ((q, x) :: ks)

/-- Python `min`: keep the first element, replacing it only on a strictly
smaller key, so the first minimum wins. -/
def minFold {α : Type} (b : ℚ × α) : List (ℚ × α) → ℚ × α
  | [] => b
  | x :: xs => minFold (if x.1 < b.1 then x else b) xs

/-- `min(valid_pricing, key=lambda x: float(x["Price"]))` (ValueError on an
empty list). -/
def pyMinByPrice (l : List JVal) : Except PyErr JVal :=
  match keyed keyOfOpt l with
  | .error e => .error e
  | .ok [] => .error .valueError
  | .ok (k :: ks) => .ok (minFold k ks).2

/-- Price stage (lines 62-85): filter the pricing options; with a truthy
price condition and no survivor the plan is dropped; the representative is
the min-price survivor, falling back to the first listed option when the
survivor list is empty and the price condition is falsy. -/
def priceStage (pc plan : JVal) : Except PyErr (Option JVal) :=
  match dictGetD plan "PricingOptions" (.list []) with
  | .error e => .error e
  | .ok optsJ =>
  match asList optsJ with
  | .error e => .error e
  | .ok opts =>
  match validPricingLoop pc opts with
  | .error e => .error e
  | .ok valid =>
      if truthy pc && valid.isEmpty then .ok none
      else if !valid.isEmpty then
        match pyMinByPrice valid with
        | .error e => .error e
        | .ok best => .ok (some best)
      else
        match getItem plan "PricingOptions" with
        | .error e => .error e
        | .ok allJ =>
            match pyIndex0 allJ with
            | .error e => .error e
            | .ok best => .ok (some best)

/-- One iteration of the plan loop (lines 44-87): storage, feature and
price stages in source order; a surviving plan contributes the triple
`(p["Platform"], plan, best)`. -/
def processPlan (pc sc feature p plan : JVal) :
    Except PyErr (Option (JVal × JVal × JVal)) :=
  match storageStage sc plan with
  | .error e => .error e
  | .ok false => .ok none
  | .ok true =>
  match featureStage feature plan with
  | .error e => .error e
  | .ok false => .ok none
  | .ok true =>
  match priceStage pc plan with
  | .error e => .error e
  | .ok none => .ok none
  | .ok (some best) =>
      match getItem p "Platform" with
      | .error e => .error e
      | .ok pn => .ok (some (pn, plan, best))

def plansLoop (pc sc feature p : JVal) :
    List JVal → Except PyErr (List (JVal × JVal × JVal))
  | [] => .ok []
  | plan :: rest =>
      match processPlan pc sc feature p plan with
      | .error e => .error e
      | .ok c =>
          match plansLoop pc sc feature p rest with
          | .error e => .error e
          | .ok cs =>
              .ok (match c with
                   | some cand => cand :: cs
                   | none => cs)

/-- The candidate-collection loop over platforms (lines 41-87), in catalog
traversal order. -/
def collectCandidates (pc sc feature : JVal) :
    List JVal → Except PyErr (List (JVal × JVal × JVal))
  | [] => .ok []
  | p :: rest =>
      match getItem p "Plans" with
      | .error e => .error e
      | .ok plansJ =>
      match asList plansJ with
      | .error e => .error e
      | .ok plans =>
      match plansLoop pc sc feature p plans with
      | .error e => .error e
      | .ok cs =>
          match collectCandidates pc sc feature rest with
          | .error e => .error e
          | .ok more => .ok (cs ++ more)

/-- `[p for p in data if p["Platform"] == platform]` (line 37): the key is
read on every record, so a record missing `Platform` raises even when
another record matches. -/
def filterByPlatform (platform : JVal) : List JVal → Except PyErr (List JVal)
  | [] => .ok []
  | p :: rest =>
      match getItem p "Platform" with
      | .error e => .error e
      | .ok v =>
          match filterByPlatform platform rest with
          | .error e => .error e
          | .ok fs => .ok (if pyEq v platform then p :: fs else fs)

/-- Platform stage (lines 36-39). -/
def selectPlatforms (platform : JVal) (dataL : List JVal) :
    Except PyErr (List JVal) :=
  if truthy platform then filterByPlatform platform dataL else .ok dataL

/-- Reading the four query fields (lines 30-33). -/
def queryParts (parsed : JVal) : Except PyErr (JVal × JVal × JVal × JVal) :=
  match dictGet parsed "Platform" with
  | .error e => .error e
  | .ok platform =>
  match dictGetD parsed "Price" (.dict []) with
  | .error e => .error e
  | .ok pc =>
  match dictGetD parsed "Storage" (.dict []) with
  | .error e => .error e
  | .ok sc =>
  match dictGet parsed "Feature" with
  | .error e => .error e
  | .ok feature => .ok (platform, pc, sc, feature)

/-- Stable ascending insertion by key: an element is placed before the
first strictly larger key, so equal keys keep their original order.  A
stable ascending sort is extensionally unique, so this models Python's
(stable) `list.sort`. -/
def insertAsc {α : Type} (x : ℚ × α) : List (ℚ × α) → List (ℚ × α)
  | [] => [x]
  | y :: ys => if x.1 ≤ y.1 then x :: y :: ys else y :: insertAsc x ys

def stableSort {α : Type} : List (ℚ × α) → List (ℚ × α)
  | [] => []
  | x :: xs => insertAsc x (stableSort xs)

/-- Building the result dictionary (lines 95-103). -/
def mkResult (feature pn plan opt : JVal) : Except PyErr JVal :=
  match getItem plan "PlanName" with
  | .error e => .error e
  | .ok pname =>
  match getItem opt "Price" with
  | .error e => .error e
  | .ok priceJ =>
  match pyFloat priceJ with
  | .error e => .error e
  | .ok price =>
  match getItem opt "PlanType" with
  | .error e => .error e
  | .ok ptype =>
  match getItem plan "Storage" with
  | .error e => .error e
  | .ok stor =>
      .ok (.dict [("Platform", pn), ("PlanName", pname),
                  ("Price", .num price), ("PlanType", ptype),
                  ("Storage", stor), ("FeatureMatch", feature)])

/-- The sort key of line 93: `float(x[2]["Price"])`. -/
def keyOfCand (c : JVal × JVal × JVal) : Except PyErr ℚ :=
  keyOfOpt c.2.2

/-- `retrieve_info(parsed)` with the catalog passed explicitly (the file
load at line 28 is an excluded collaborator).  Returns `none` for Python's
`return None`, the result dictionary otherwise. -/
def retrieve_info (parsed data : JVal) : Except PyErr (Option JVal) :=
  match queryParts parsed with
  | .error e => .error e
  | .ok (platform, pc, sc, feature) =>
  match asList data with
  | .error e => .error e
  | .ok dataL =>
  match selectPlatforms platform dataL with
  | .error e => .error e
  | .ok platforms =>
  match collectCandidates pc sc feature platforms with
  | .error e => .error e
  | .ok cands =>
      if cands.isEmpty then .ok none
      else
        match keyed keyOfCand cands with
        | .error e => .error e
        | .ok kc =>
            match stableSort kc with
            | [] => .error .indexError
            | (_, (pn, plan, opt)) :: _ =>
                match mkResult feature pn plan opt with
                | .error e => .error e
                | .ok r => .ok (some r)

/-! ## src/utils/semantic_parser.py -/

/-- The JSON-decoding failure of the raw model output. -/
inductive JsonErr : Type where
  | decodeError : JsonErr

/-- The schema's all-absent query, built by the fallback (lines 70-75). -/
def all_absent_query : JVal :=
  .dict [("Platform", .null),
         ("Price", .dict [("min", .null), ("max", .null), ("cycle", .null)]),
         ("Storage", .dict [("min", .null), ("max", .null)]),
         ("Feature", .null)]

/-- The post-processing of `parse_with_llm` (lines 66-75): a payload whose
JSON decoding failed is replaced by the all-absent query; any successfully
decoded payload is returned unchanged, with no schema validation. -/
def parse_with_llm_post : Except JsonErr JVal → JVal
  | .error _ => all_absent_query
  | .ok v => v

/-- The price sub-query of the all-absent query. -/
def pcAbsent : JVal :=
  .dict [("min", .null), ("max", .null), ("cycle", .null)]

/-- The storage sub-query of the all-absent query. -/
def scAbsent : JVal :=
  .dict [("min", .null), ("max", .null)]

/-! ## src/evaluation/evaluate_accuracy.py -/

/-- Zero-padded decimal rendering of the fractional part. -/
def padZeros (k : ℕ) (s : String) : String :=
  if s.length < k then String.mk (List.replicate (k - s.length) '0') ++ s else s

/-- The least scaling exponent making the rational integral, searched with
fuel. -/
def decScale : ℕ → ℚ → Option ℕ
  | 0, _ => none
  | fuel + 1, q => if q.den = 1 then some 0 else (decScale fuel (q * 10)).map (· + 1)

/-- Decimal rendering of a rational with terminating expansion (how Python
prints the decimal values this system handles); non-terminating rationals
fall back to a fraction rendering (such values do not occur here). -/
def qToDecimalString (q : ℚ) : String :=
  if q.den = 1 then toString q.num
  else
    match decScale 40 q with
    | some k =>
        let m := (q * (10 : ℚ) ^ k).num
        let sgn := if m < 0 then "-" else ""
        let a := m.natAbs
        sgn ++ toString (a / 10 ^ k) ++ "." ++ padZeros k (toString (a % 10 ^ k))
    | none => toString q.num ++ "/" ++ toString q.den

/-- Python `str(v)` on the value shapes the evaluator meets (strings and
decimal numbers; containers do not occur as field values in this data and
get a placeholder rendering). -/
def pyStr : JVal → String
  | .null => "None"
  | .str s => s
  | .num q => qToDecimalString q
  | .list _ => "<list>"
  | .dict _ => "<dict>"

/-- `normalize_value` (lines 45-48): None becomes the empty string,
anything else is stringified, stripped and lower-cased. -/
def normalize_value : JVal → String
  | .null => ""
  | v => toLowerS (pyStrip (pyStr v))

/-- `normalize_obj` (lines 51-52): lower-case every key, normalize every
value. -/
def normalize_obj (kvs : List (String × JVal)) : List (String × String) :=
  kvs.map (fun kv => (toLowerS kv.1, normalize_value kv.2))

/-- Order-preserving deduplication (`list(dict.fromkeys(vals))`). -/
def dedupAux (seen : List String) : List String → List String
  | [] => []
  | x :: xs =>
      if seen.contains x then dedupAux seen xs
      else x :: dedupAux (x :: seen) xs

def dedupKeepFirst (l : List String) : List String :=
  dedupAux [] l

/-- `list_of_norm_strings_from_objs` (lines 55-62): the normalized values
of every dict in the list, deduplicated keeping first occurrences. -/
def list_of_norm_strings_from_objs (objs : List JVal) : List String :=
  dedupKeepFirst
    (objs.flatMap (fun o =>
      match o with
      | .dict kvs => (normalize_obj kvs).map (·.2)
      | _ => []))

/-! ### The four token scanners of `extract_factual_tokens` (lines 108-124)

Each scanner walks the lower-cased text exactly as `re.findall` /
`re.finditer` does: left to right, non-overlapping, greedy with the
backtracking the specific pattern admits.  The recursion is fueled by the
text length so that the definitions stay structurally recursive (every
step consumes at least one character). -/

/-- `re.findall(r"\$\s*\d+(\.\d+)?", text)` — with a capture group,
`findall` returns GROUP 1 (the fractional part, or the empty string when
there is none), not the full currency amount. -/
def scanCurrency (fuel : ℕ) (cs : List Char) : List String :=
  match fuel, cs with
  | 0, _ => []
  | _, [] => []
  | fuel + 1, '$' :: rest =>
      let afterSp := rest.dropWhile isPySpace
      let ds := afterSp.takeWhile Char.isDigit
      if ds.isEmpty then scanCurrency fuel rest
      else
        let after := afterSp.drop ds.length
        match after with
        | '.' :: r =>
            let fs := r.takeWhile Char.isDigit
            if fs.isEmpty then "" :: scanCurrency fuel after
            else String.mk ('.' :: fs) :: scanCurrency fuel (r.drop fs.length)
        | _ => "" :: scanCurrency fuel after
  | fuel + 1, _ :: rest => scanCurrency fuel rest

/-- `re.finditer(r"\d+(\.\d+)?\s*(tb|gb)", text)`, taking `group(0)`
(`.strip()` is a no-op: a match begins with a digit and ends with `b`).
Shortening the greedy digit runs can never enable the unit to match, so
the scan is deterministic. -/
def scanSize (fuel : ℕ) (cs : List Char) : List String :=
  match fuel, cs with
  | 0, _ => []
  | _, [] => []
  | fuel + 1, c :: rest =>
      if c.isDigit then
        let ds := (c :: rest).takeWhile Char.isDigit
        let after := (c :: rest).drop ds.length
        let frAfter : List Char × List Char :=
          match after with
          | '.' :: r =>
              let fs := r.takeWhile Char.isDigit
              if fs.isEmpty then ([], after) else ('.' :: fs, r.drop fs.length)
          | _ => ([], after)
        let sp := frAfter.2.takeWhile isPySpace
        let after3 := frAfter.2.drop sp.length
        match after3 with
        | u1 :: 'b' :: r2 =>
            if u1 = 't' || u1 = 'g' then
              String.mk (ds ++ frAfter.1 ++ sp ++ [u1, 'b']) :: scanSize fuel r2
            else scanSize fuel rest
        | _ => scanSize fuel rest
      else scanSize fuel rest

/-- Word boundary after a match: the next character (if any) must not be a
word character. -/
def boundaryAfter : List Char → Bool
  | [] => true
  | c :: _ => !isWordChar c

/-- `re.finditer(r"\b\d+(\.\d+)?\b", text)`, taking `group(0)`.  The
leading boundary forces a non-word predecessor; when the trailing boundary
fails after the fractional part the regex backtracks to the integer part
alone (the following `.` is a non-word character, so that boundary always
holds). -/
def scanNum (fuel : ℕ) (prev : Option Char) (cs : List Char) : List String :=
  match fuel, cs with
  | 0, _ => []
  | _, [] => []
  | fuel + 1, c :: rest =>
      let prevWord := (prev.map isWordChar).getD false
      if c.isDigit && !prevWord then
        let ds := (c :: rest).takeWhile Char.isDigit
        let after := (c :: rest).drop ds.length
        match after with
        | '.' :: r =>
            let fs := r.takeWhile Char.isDigit
            let after2 := r.drop fs.length
            if !fs.isEmpty && boundaryAfter after2 then
              String.mk (ds ++ '.' :: fs) :: scanNum fuel (some (fs.getLastD '0')) after2
            else
              String.mk ds :: scanNum fuel (some (ds.getLastD '0')) after
        | _ =>
            if boundaryAfter after then
              String.mk ds :: scanNum fuel (some (ds.getLastD '0')) after
            else scanNum fuel (some c) rest
      else scanNum fuel (some c) rest

/-- The character class `[a-z0-9\-_]` (the text is already lower-cased). -/
def wordClassC (c : Char) : Bool :=
  ('a' ≤ c && c ≤ 'z') || c.isDigit || c = '-' || c = '_'

/-- Word boundary between a last matched character and the next one. -/
def boundaryB (l : Char) (next : Option Char) : Bool :=
  isWordChar l != (next.map isWordChar).getD false

/-- Backtracking of `{3,}`: the longest class-run of length at least
three whose trailing boundary holds (tried longest first, as the greedy
quantifier does). -/
def tryRun (n : ℕ) (run after : List Char) : Option (List Char × List Char) :=
  match n with
  | 0 => none
  | m + 1 =>
      if m + 1 < 3 then none
      else
        let p := run.take (m + 1)
        let rem := run.drop (m + 1) ++ after
        if boundaryB (p.getLastD '_') rem.head? then some (p, rem)
        else tryRun m run after

/-- `re.findall(r"\b[a-z0-9\-_]{3,}\b", text)` (no capture group, so the
full matches are returned). -/
def scanWord (fuel : ℕ) (prev : Option Char) (cs : List Char) : List String :=
  match fuel, cs with
  | 0, _ => []
  | _, [] => []
  | fuel + 1, c :: rest =>
      let prevWord := (prev.map isWordChar).getD false
      if wordClassC c && (isWordChar c != prevWord) then
        let run := (c :: rest).takeWhile wordClassC
        let afterRun := (c :: rest).drop run.length
        match tryRun run.length run afterRun with
        | some (m, restAfter) =>
            String.mk m :: scanWord fuel (some (m.getLastD '_')) restAfter
        | none => scanWord fuel (some c) rest
      else scanWord fuel (some c) rest

/-- `extract_factual_tokens` (lines 108-124): the four categories are
collected into a set and returned stripped.  The Python set is modelled as
a first-occurrence-deduplicated list (every downstream use — emptiness and
per-token membership tests — is order- and multiplicity-independent). -/
def extract_factual_tokens (answer : String) : List String :=
  let cs := (toLowerS answer).data
  let fuel := cs.length + 1
  let toks :=
    scanCurrency fuel cs ++ scanSize fuel cs ++
    scanNum fuel none cs ++ scanWord fuel none cs
  (dedupKeepFirst toks).map pyStrip

/-- `isinstance(v, dict)`. -/
def isDictB : JVal → Bool
  | .dict _ => true
  | _ => false

/-- The SAFETY PATCH normalization shared by `detect_hallucination_from_answer`
and `completeness_fraction` (lines 130-133 / 163-166): a non-list becomes
the empty list, and non-dict elements are dropped. -/
def asDictListJ : JVal → List JVal
  | .list xs => xs.filter isDictB
  | _ => []

def hallucinationStoplist : List String :=
  ["plan", "monthly", "price"]

/-- `detect_hallucination_from_answer` (lines 127-155).  The `answer or ""`
coercion is the identity on strings.  With an empty retrieval the answer
hallucinates iff it is not an explicit not-found/empty answer and yields at
least one factual token; otherwise it hallucinates iff some extracted token
outside the stoplist is a substring of no normalized retrieved value. -/
def detect_hallucination_from_answer (retrieved : JVal) (answer : String) : Bool :=
  let objs := asDictListJ retrieved
  let retrieved_tokens := list_of_norm_strings_from_objs objs
  if objs.isEmpty then
    let low := toLowerS answer
    if substr "no matching" low || substr "not found" low || pyStrip low = "" then
      false
    else !(extract_factual_tokens answer).isEmpty
  else
    let factual := extract_factual_tokens answer
    if factual.isEmpty then false
    else
      factual.any (fun t =>
        !hallucinationStoplist.contains t &&
        !retrieved_tokens.any (fun rv => substr t rv))

/-- Round-half-even on rationals (Python's `round`). -/
def roundHalfEvenZ (q : ℚ) : ℤ :=
  let f := ⌊q⌋
  let r := q - f
  if r < 1 / 2 then f
  else if 1 / 2 < r then f + 1
  else if f % 2 = 0 then f else f + 1

/-- `round(q, n)`.  Python rounds binary floats; on the short decimal
values of this system the rational rounding is the exact counterpart. -/
def pyRoundN (n : ℕ) (q : ℚ) : ℚ :=
  (roundHalfEvenZ (q * (10 : ℚ) ^ n) : ℚ) / (10 : ℚ) ^ n

/-- `completeness_fraction` (lines 160-181): after the same safety-patch
normalization, an empty retrieval is vacuously complete; otherwise the
fraction of (key, value) pairs whose lower-cased stringified value occurs
in the lower-cased answer, rounded to two places (1.0 when there are no
pairs). -/
def completeness_fraction (retrieved : JVal) (answer : String) : ℚ :=
  let objs := asDictListJ retrieved
  if objs.isEmpty then 1
  else
    let ans := toLowerS answer
    let pairs := objs.flatMap (fun o =>
      match o with
      | .dict kvs => kvs
      | _ => [])
    let total := pairs.length
    let matched := (pairs.filter (fun kv => substr (toLowerS (pyStr kv.2)) ans)).length
    if total = 0 then 1 else pyRoundN 2 ((matched : ℚ) / (total : ℚ))

/-- The retrieved-argument normalization of `retrieved_matches_expected`
(lines 70-77): None and non-list non-dict values become the empty list, a
single dict is wrapped, and non-dict list elements are dropped. -/
def asDictListWrap : JVal → List (List (String × JVal))
  | .dict kvs => [kvs]
  | .list xs =>
      xs.filterMap (fun v =>
        match v with
        | .dict kvs => some kvs
        | _ => none)
  | _ => []

/-- `retrieved_matches_expected` (lines 67-103).  The expected records are
dicts by construction (loaded ground truth), modelled directly as
association lists. -/
def retrieved_matches_expected (expected_list : List (List (String × JVal)))
    (retrieved : JVal) : Bool :=
  let retrieved_list := asDictListWrap retrieved
  if expected_list.isEmpty && retrieved_list.isEmpty then true
  else if expected_list.isEmpty then false
  else if retrieved_list.isEmpty then false
  else
    let norm_expected := expected_list.map normalize_obj
    let norm_retrieved := retrieved_list.map normalize_obj
    norm_expected.all (fun exp =>
      norm_retrieved.any (fun ret =>
        exp.all (fun kv =>
          kv.2 = "" || substr kv.2 (lookupD ret kv.1 ""))))

/-! ### The aggregate summary of `main` (lines 231-334) -/

/-- The accumulator initialized at lines 231-241: counts are naturals, the
completeness accumulators are rationals. -/
structure RunStats : Type where
  total : ℕ
  correct_retrieval : ℕ
  retrieval_success : ℕ
  parser_consistency : ℕ
  retrieval_consistency : ℕ
  hallucination_llm_only : ℕ
  hallucination_rag : ℕ
  completeness_llm_only : ℚ
  completeness_rag : ℚ

/-- `stats` as initialized for a run over `n` questions; a run over zero
questions reaches the summary computation with exactly `initStats 0` and
empty latency lists. -/
def initStats (n : ℕ) : RunStats :=
  ⟨n, 0, 0, 0, 0, 0, 0, 0, 0⟩

/-- The aggregate summary document (lines 320-334). -/
structure Summary : Type where
  total_questions : ℚ
  retrieval_accuracy_percent : ℚ
  retrieval_success_percent : ℚ
  parser_consistency_percent : ℚ
  retrieval_consistency_percent : ℚ
  hallucination_rate_llm_only_percent : ℚ
  hallucination_rate_rag_percent : ℚ
  avg_completeness_llm_only : ℚ
  avg_completeness_rag : ℚ
  avg_parse_latency : ℚ
  avg_retrieve_latency : ℚ
  avg_llm_generate_latency : ℚ
  avg_rag_generate_latency : ℚ

/-- Python `/`, raising ZeroDivisionError on a zero denominator. -/
def pyDivQ (a b : ℚ) : Except PyErr ℚ :=
  if b = 0 then .error .zeroDivisionError else .ok (a / b)

/-- The summary computation (lines 320-334), field by field in source
order.  Every percentage divides by `stats["total"]` and every average
latency divides by the length of its latency list, all unguarded. -/
def mkSummary (s : RunStats) (parse_lat retr_lat gen_llm_lat gen_rag_lat : List ℚ) :
    Except PyErr Summary :=
  match pyDivQ (100 * (s.correct_retrieval : ℚ)) (s.total : ℚ) with
  | .error e => .error e
  | .ok acc =>
  match pyDivQ (100 * (s.retrieval_success : ℚ)) (s.total : ℚ) with
  | .error e => .error e
  | .ok succ =>
  match pyDivQ (100 * (s.parser_consistency : ℚ)) (s.total : ℚ) with
  | .error e => .error e
  | .ok pcons =>
  match pyDivQ (100 * (s.retrieval_consistency : ℚ)) (s.total : ℚ) with
  | .error e => .error e
  | .ok rcons =>
  match pyDivQ (100 * (s.hallucination_llm_only : ℚ)) (s.total : ℚ) with
  | .error e => .error e
  | .ok hllm =>
  match pyDivQ (100 * (s.hallucination_rag : ℚ)) (s.total : ℚ) with
  | .error e => .error e
  | .ok hrag =>
  match pyDivQ s.completeness_llm_only (s.total : ℚ) with
  | .error e => .error e
  | .ok cllm =>
  match pyDivQ s.completeness_rag (s.total : ℚ) with
  | .error e => .error e
  | .ok crag =>
  match pyDivQ parse_lat.sum (parse_lat.length : ℚ) with
  | .error e => .error e
  | .ok lp =>
  match pyDivQ retr_lat.sum (retr_lat.length : ℚ) with
  | .error e => .error e
  | .ok lr =>
  match pyDivQ gen_llm_lat.sum (gen_llm_lat.length : ℚ) with
  | .error e => .error e
  | .ok lg =>
  match pyDivQ gen_rag_lat.sum (gen_rag_lat.length : ℚ) with
  | .error e => .error e
  | .ok lrag =>
      .ok ⟨(s.total : ℚ), pyRoundN 2 acc, pyRoundN 2 succ, pyRoundN 2 pcons,
           pyRoundN 2 rcons, pyRoundN 2 hllm, pyRoundN 2 hrag,
           pyRoundN 3 cllm, pyRoundN 3 crag, pyRoundN 4 lp, pyRoundN 4 lr,
           pyRoundN 4 lg, pyRoundN 4 lrag⟩

/-! ## Derived predicates used by the theorems -/

def exIsOk {α : Type} : Except PyErr α → Bool
  | .ok _ => true
  | .error _ => false

/-- No price condition was supplied: the `cycle` entry is falsy and the
`min`/`max` entries are None (missing entries default to None, matching
`price_cond.get`).  On a non-dict the predicate is vacuous — a non-dict
price condition never yields a representative option. -/
def noPriceCond : JVal → Bool
  | .dict kvs =>
      !truthy (lookupD kvs "cycle" .null) &&
      isNull (lookupD kvs "min" .null) && isNull (lookupD kvs "max" .null)
  | _ => true

/-- A pricing option the engine can fully consume: a dict whose `Price`
parses as a number and which carries a `PlanType`. -/
def wfOpt (o : JVal) : Bool :=
  exIsOk (keyOfOpt o) && exIsOk (getItem o "PlanType")

/-- A plan record with the fields the engine reads: `PlanName`, a
`Storage` entry whose parse does not raise, and a `PricingOptions` list of
well-formed options. -/
def wfPlan (pl : JVal) : Bool :=
  exIsOk (getItem pl "PlanName") &&
  (match getItem pl "Storage" with
   | .ok stJ => exIsOk (parse_storage_to_gb stJ)
   | .error _ => false) &&
  (match getItem pl "PricingOptions" with
   | .ok (.list opts) => opts.all wfOpt
   | _ => false)

/-- A platform record with a `Platform` name and a list of well-formed
plans. -/
def wfPlatformRec (p : JVal) : Bool :=
  exIsOk (getItem p "Platform") &&
  (match getItem p "Plans" with
   | .ok (.list pls) => pls.all wfPlan
   | _ => false)

/-- A well-formed catalog: a list of well-formed platform records (the
shape of `data/cloud_storage.json` described in the spec's external
interface). -/
def wfCatalog (d : JVal) : Bool :=
  match asList d with
  | .ok ps => ps.all wfPlatformRec
  | _ => false

/-! ## Concrete fixtures from the spec's scenarios -/

/-- `{Platform: "Dropbox", Price: "9.99"}`, the retrieved record of the
spec's hallucination scenario. -/
def retrievedDropbox : JVal :=
  .list [.dict [("Platform", .str "Dropbox"), ("Price", .str "9.99")]]

def mkOptF (pr cy : String) : JVal :=
  .dict [("Price", .str pr), ("PlanType", .str cy)]

def mkPlanF (nm st : String) (opts : List JVal) : JVal :=
  .dict [("PlanName", .str nm), ("Storage", .str st), ("Features", .list []),
         ("PricingOptions", .list opts)]

def mkPlatF (nm : String) (plans : List JVal) : JVal :=
  .dict [("Platform", .str nm), ("Plans", .list plans)]

/-- Two platforms, each one plan priced $9.99/month — the spec's tie-break
scenario. -/
def catTie : JVal :=
  .list [mkPlatF "Alpha" [mkPlanF "A1" "2 TB" [mkOptF "9.99" "Monthly"]],
         mkPlatF "Beta" [mkPlanF "B1" "2 TB" [mkOptF "9.99" "Monthly"]]]

/-- The result the engine returns on `catTie` under the all-absent query:
the $9.99 plan of the FIRST platform in catalog order. -/
def resTie : JVal :=
  .dict [("Platform", .str "Alpha"), ("PlanName", .str "A1"),
         ("Price", .num (999 / 100)), ("PlanType", .str "Monthly"),
         ("Storage", .str "2 TB"), ("FeatureMatch", .null)]

/-- A catalog whose only pricing option has the unparsable price `"abc"`. -/
def catBadPrice : JVal :=
  .list [mkPlatF "Alpha" [mkPlanF "A1" "1 GB" [mkOptF "abc" "Monthly"]]]

/-- A second catalog with an unparsable price text (`"N/A"`). -/
def catBadPrice2 : JVal :=
  .list [mkPlatF "Gamma" [mkPlanF "G1" "2 TB" [mkOptF "N/A" "Monthly"]]]

/-- A plan record missing the required `PlanName` field. -/
def planNoName : JVal :=
  .dict [("Storage", .str "1 GB"), ("Features", .list []),
         ("PricingOptions", .list [mkOptF "99.99" "Monthly"])]

/-- A catalog containing a record missing a required field (`PlanName`)
next to a cheaper well-formed plan. -/
def catNoName : JVal :=
  .list [mkPlatF "Alpha" [planNoName, mkPlanF "A2" "1 GB" [mkOptF "1.99" "Monthly"]]]

/-- A catalog record missing the required `Platform` field. -/
def recNoPlatform : JVal :=
  .dict [("Plans", .list [mkPlanF "X" "1 GB" [mkOptF "1" "Monthly"]])]

/-- A query selecting platform `"Alpha"` with no other condition. -/
def queryPlatformAlpha : JVal :=
  .dict [("Platform", .str "Alpha"),
         ("Price", .dict [("min", .null), ("max", .null), ("cycle", .null)]),
         ("Storage", .dict [("min", .null), ("max", .null)]),
         ("Feature", .null)]

/-! ## Helper lemmas -/

theorem exIsOk_iff {α : Type} {e : Except PyErr α} :
    exIsOk e = true ↔ ∃ a, e = .ok a := by
  cases e with
  | ok a => simp [exIsOk]
  | error _ => simp [exIsOk]

theorem getItem_dict {v : JVal} {k : String} {x : JVal}
    (h : getItem v k = .ok x) : ∃ kvs, v = .dict kvs ∧ lookup? kvs k = some x := by
  cases v with
  | dict kvs =>
      refine ⟨kvs, rfl, ?_⟩
      revert h
      cases hl : lookup? kvs k <;> simp [getItem, hl]
  | null => simp [getItem] at h
  | num q => simp [getItem] at h
  | str s => simp [getItem] at h
  | list xs => simp [getItem] at h

theorem dictGet_of_getItem {v : JVal} {k : String} {x : JVal}
    (h : getItem v k = .ok x) : dictGet v k = .ok x := by
  obtain ⟨kvs, rfl, hl⟩ := getItem_dict h
  simp [dictGet, lookupD, hl]

theorem dictGetD_of_getItem {v : JVal} {k : String} {x d : JVal}
    (h : getItem v k = .ok x) : dictGetD v k d = .ok x := by
  obtain ⟨kvs, rfl, hl⟩ := getItem_dict h
  simp [dictGetD, lookupD, hl]

theorem getItem_of_dictGet_ne_null {v : JVal} {k : String} {x : JVal}
    (h : dictGet v k = .ok x) (hx : isNull x = false) : getItem v k = .ok x := by
  cases v with
  | dict kvs =>
      simp only [dictGet, Except.ok.injEq] at h
      cases hl : lookup? kvs k with
      | some y =>
          simp [lookupD, hl] at h
          simp [getItem, hl, h]
      | none =>
          rw [← h] at hx
          simp [lookupD, hl, isNull] at hx
  | null => simp [dictGet] at h
  | num q => simp [dictGet] at h
  | str s => simp [dictGet] at h
  | list xs => simp [dictGet] at h

theorem minFold_mem {α : Type} (b : ℚ × α) (l : List (ℚ × α)) :
    minFold b l = b ∨ minFold b l ∈ l := by
  induction l generalizing b with
  | nil => left; rfl
  | cons x xs ih =>
      rcases ih (if x.1 < b.1 then x else b) with h | h
      · rw [minFold, h]
        split
        · right; exact List.mem_cons_self x xs
        · left; rfl
      · right
        rw [minFold]
        exact List.mem_cons_of_mem x h

theorem minFold_le {α : Type} (b : ℚ × α) (l : List (ℚ × α)) :
    (minFold b l).1 ≤ b.1 ∧ ∀ x ∈ l, (minFold b l).1 ≤ x.1 := by
  induction l generalizing b with
  | nil => exact ⟨le_refl _, by intro x hx; cases hx⟩
  | cons x xs ih =>
      obtain ⟨h1, h2⟩ := ih (if x.1 < b.1 then x else b)
      rw [minFold]
      constructor
      · refine le_trans h1 ?_
        split
        · next hlt => exact le_of_lt hlt
        · exact le_refl _
      · intro y hy
        rcases List.mem_cons.mp hy with rfl | hy'
        · refine le_trans h1 ?_
          split
          · exact le_refl _
          · next hnlt => exact le_of_not_lt hnlt
        · exact h2 y hy'

theorem keyed_mem_of_ok {α : Type} {f : α → Except PyErr ℚ} {l : List α}
    {ks : List (ℚ × α)} (h : keyed f l = .ok ks) :
    ∀ kx ∈ ks, kx.2 ∈ l ∧ f kx.2 = .ok kx.1 := by
  induction l generalizing ks with
  | nil =>
      simp only [keyed, Except.ok.injEq] at h
      subst h
      intro kx hkx; cases hkx
  | cons x xs ih =>
      rw [keyed] at h
      cases hf : f x with
      | error e => rw [hf] at h; cases h
      | ok q =>
          rw [hf] at h
          cases hr : keyed f xs with
          | error e => rw [hr] at h; cases h
          | ok ks' =>
              rw [hr] at h
              simp only [Except.ok.injEq] at h
              subst h
              intro kx hkx
              rcases List.mem_cons.mp hkx with rfl | hkx'
              · exact ⟨List.mem_cons_self x xs, hf⟩
              · obtain ⟨hm, he⟩ := ih hr kx hkx'
                exact ⟨List.mem_cons_of_mem x hm, he⟩

theorem keyed_forall_of_ok {α : Type} {f : α → Except PyErr ℚ} {l : List α}
    {ks : List (ℚ × α)} (h : keyed f l = .ok ks) :
    ∀ x ∈ l, ∃ q, f x = .ok q ∧ (q, x) ∈ ks := by
  induction l generalizing ks with
  | nil => intro x hx; cases hx
  | cons x xs ih =>
      rw [keyed] at h
      cases hf : f x with
      | error e => rw [hf] at h; cases h
      | ok q =>
          rw [hf] at h
          cases hr : keyed f xs with
          | error e => rw [hr] at h; cases h
          | ok ks' =>
              rw [hr] at h
              simp only [Except.ok.injEq] at h
              subst h
              intro y hy
              rcases List.mem_cons.mp hy with rfl | hy'
              · exact ⟨q, hf, List.mem_cons_self _ _⟩
              · obtain ⟨q', hq', hm⟩ := ih hr y hy'
                exact ⟨q', hq', List.mem_cons_of_mem _ hm⟩

theorem keyed_ok_of_forall {α : Type} {f : α → Except PyErr ℚ} {l : List α}
    (h : ∀ x ∈ l, ∃ q, f x = .ok q) : ∃ ks, keyed f l = .ok ks := by
  induction l with
  | nil => exact ⟨[], rfl⟩
  | cons x xs ih =>
      obtain ⟨q, hq⟩ := h x (List.mem_cons_self x xs)
      obtain ⟨ks, hks⟩ := ih (fun y hy => h y (List.mem_cons_of_mem x hy))
      exact ⟨(q, x) :: ks, by rw [keyed, hq, hks]⟩

theorem keyed_cons_shape {α : Type} {f : α → Except PyErr ℚ} {x : α} {xs : List α}
    {ks : List (ℚ × α)} (h : keyed f (x :: xs) = .ok ks) :
    ∃ q ks', ks = (q, x) :: ks' := by
  rw [keyed] at h
  cases hf : f x with
  | error e => rw [hf] at h; cases h
  | ok q =>
      rw [hf] at h
      cases hr : keyed f xs with
      | error e => rw [hr] at h; cases h
      | ok ks' =>
          rw [hr] at h
          simp only [Except.ok.injEq] at h
          exact ⟨q, ks', h.symm⟩

theorem insertAsc_mem {α : Type} {x y : ℚ × α} {l : List (ℚ × α)}
    (h : y ∈ insertAsc x l) : y = x ∨ y ∈ l := by
  induction l with
  | nil =>
      rw [insertAsc] at h
      rcases List.mem_singleton.mp h with rfl
      exact Or.inl rfl
  | cons z zs ih =>
      rw [insertAsc] at h
      split at h
      · rcases List.mem_cons.mp h with rfl | h'
        · exact Or.inl rfl
        · exact Or.inr h'
      · rcases List.mem_cons.mp h with rfl | h'
        · exact Or.inr (List.mem_cons_self _ _)
        · rcases ih h' with h'' | h''
          · exact Or.inl h''
          · exact Or.inr (List.mem_cons_of_mem _ h'')

theorem stableSort_mem {α : Type} {y : ℚ × α} {l : List (ℚ × α)}
    (h : y ∈ stableSort l) : y ∈ l := by
  induction l with
  | nil => cases h
  | cons x xs ih =>
      rw [stableSort] at h
      rcases insertAsc_mem h with rfl | h'
      · exact List.mem_cons_self _ _
      · exact List.mem_cons_of_mem _ (ih h')

theorem insertAsc_ne_nil {α : Type} (x : ℚ × α) (l : List (ℚ × α)) :
    insertAsc x l ≠ [] := by
  cases l with
  | nil => simp [insertAsc]
  | cons z zs =>
      rw [insertAsc]
      split <;> simp

theorem stableSort_eq_nil {α : Type} {l : List (ℚ × α)}
    (h : stableSort l = []) : l = [] := by
  cases l with
  | nil => rfl
  | cons x xs =>
      rw [stableSort] at h
      exact absurd h (insertAsc_ne_nil x (stableSort xs))

/-- The head of the stable ascending sort is the element at the first
index attaining the minimal key: its key is a lower bound for every key,
and every strictly earlier element has a strictly larger key. -/
theorem stableSort_head_min {α : Type} {l : List (ℚ × α)} {y : ℚ × α}
    {rest : List (ℚ × α)} (h : stableSort l = y :: rest) :
    ∃ i, l.get? i = some y ∧ (∀ j x, l.get? j = some x → y.1 ≤ x.1) ∧
      (∀ j x, j < i → l.get? j = some x → y.1 < x.1) := by
  induction l generalizing y rest with
  | nil => cases h
  | cons a as ih =>
      rw [stableSort] at h
      cases hs : stableSort as with
      | nil =>
          have has : as = [] := stableSort_eq_nil hs
          subst has
          rw [hs, insertAsc] at h
          simp only [List.cons.injEq] at h
          obtain ⟨rfl, _⟩ := h
          refine ⟨0, rfl, ?_, ?_⟩
          · intro j x hj
            cases j with
            | zero => simp only [List.get?] at hj; rw [Option.some.injEq] at hj; rw [← hj]
            | succ j' => simp [List.get?] at hj
          · intro j x hj _
            omega
      | cons z zs =>
          rw [hs, insertAsc] at h
          obtain ⟨i', hz, hle, hlt⟩ := ih hs
          split at h
          · next hxz =>
              simp only [List.cons.injEq] at h
              obtain ⟨rfl, _⟩ := h
              refine ⟨0, rfl, ?_, ?_⟩
              · intro j x hj
                cases j with
                | zero =>
                    simp only [List.get?, Option.some.injEq] at hj
                    rw [← hj]
                | succ j' =>
                    simp only [List.get?] at hj
                    exact le_trans hxz (hle j' x hj)
              · intro j x hj _
                omega
          · next hxz =>
              push_neg at hxz
              simp only [List.cons.injEq] at h
              obtain ⟨rfl, _⟩ := h
              refine ⟨i' + 1, hz, ?_, ?_⟩
              · intro j x hj
                cases j with
                | zero =>
                    simp only [List.get?, Option.some.injEq] at hj
                    rw [← hj]
                    exact le_of_lt hxz
                | succ j' =>
                    simp only [List.get?] at hj
                    exact hle j' x hj
              · intro j x hj hj'
                cases j with
                | zero =>
                    simp only [List.get?, Option.some.injEq] at hj'
                    rw [← hj']
                    exact hxz
                | succ j' =>
                    simp only [List.get?] at hj'
                    exact hlt j' x (by omega) hj'

/-! ## Claim theorems -/

/-- C1 (counterexample): on the spec's hallucination scenario the code
does NOT return false for the answer "Dropbox Plus costs $9.99/month" —
the word tokens "plus" and "costs" are substrings of no retrieved value,
so the detector flags the answer. -/
theorem c1_matching_answer_not_accepted :
    ¬ (detect_hallucination_from_answer retrievedDropbox
        "Dropbox Plus costs $9.99/month" = false) := by
  decide

/-- C1 (amended): for the retrieved record list
`[{Platform:"Dropbox", Price:"9.99"}]`, `detect_hallucination_from_answer`
returns true on BOTH answers "Dropbox Plus costs $9.99/month" and
"Dropbox costs $49.99/month": in each case some extracted word token
("plus" / "costs") is a substring of no normalized retrieved value. -/
theorem c1_hallucination_scenario :
    detect_hallucination_from_answer retrievedDropbox
      "Dropbox Plus costs $9.99/month" = true ∧
    detect_hallucination_from_answer retrievedDropbox
      "Dropbox costs $49.99/month" = true := by
  exact ⟨by decide, by decide⟩

/-- C3 (counterexample): a run over zero questions reaches the summary
computation with `initStats 0` and empty latency lists, and the very first
percentage field divides by the question count 0 — a ZeroDivisionError,
not a well-defined degenerate summary. -/
theorem c3_zero_questions_faults :
    mkSummary (initStats 0) [] [] [] [] = .error .zeroDivisionError := by
  rfl

/-- C3 (amended): no division in the summary is guarded — for EVERY
accumulator state of a zero-question run the summary computation raises
ZeroDivisionError on the first rate field. -/
theorem c3_unguarded_division (s : RunStats) (parse_lat retr_lat gl rl : List ℚ)
    (h : s.total = 0) :
    mkSummary s parse_lat retr_lat gl rl = .error .zeroDivisionError := by
  have hz : pyDivQ (100 * (s.correct_retrieval : ℚ)) ((s.total : ℕ) : ℚ) =
      .error .zeroDivisionError := by
    simp [pyDivQ, h]
  rw [mkSummary, hz]

/-- C3 (witness). -/
theorem c3_unguarded_division_witness :
    mkSummary (initStats 0) [1] [2] [3] [4] = .error .zeroDivisionError :=
  c3_unguarded_division (initStats 0) [1] [2] [3] [4] rfl

/-- C4: the currency branch of `extract_factual_tokens` uses `re.findall`
with a capture group, which returns group 1 (the fractional part) instead
of the full match — the token set for the answer "$9.99" contains ".99"
and the bare number "9.99" but NOT the full currency amount "$9.99". -/
theorem c4_currency_amount_missing :
    "$9.99" ∉ extract_factual_tokens "$9.99" ∧
    ".99" ∈ extract_factual_tokens "$9.99" ∧
    "9.99" ∈ extract_factual_tokens "$9.99" := by
  decide

/-- C5 (counterexample): a catalog whose only pricing option has the
unparsable price text "abc" makes `retrieve_info` raise ValueError
(`float(opt["Price"])`, line 64) instead of excluding the option. -/
theorem c5_unparsable_price_raises :
    retrieve_info all_absent_query catBadPrice = .error .valueError := by
  rfl

/-- C6 (counterexample): a parser payload that is valid JSON but invalid
per the StructuredQuery schema (here the number 5) is NOT replaced by the
all-absent query — it is passed through unchanged and the engine raises
AttributeError on `parsed.get`. -/
theorem c6_schema_invalid_payload_raises :
    retrieve_info (parse_with_llm_post (.ok (.num 5))) catTie =
      .error .attributeError := by
  rfl

/-- C7 (counterexample): the catalog `catNoName` contains a record missing
the required `PlanName` field, yet `retrieve_info` silently skips over the
malformed record and returns the surviving cheaper plan instead of
raising. -/
theorem c7_missing_field_tolerated :
    retrieve_info all_absent_query catNoName =
      .ok (some (.dict [("Platform", .str "Alpha"), ("PlanName", .str "A2"),
                        ("Price", .num (199 / 100)), ("PlanType", .str "Monthly"),
                        ("Storage", .str "1 GB"), ("FeatureMatch", .null)])) := by
  rfl

/-- C5 (amended): storage text that does not match the numeric pattern is
treated as unknown without raising, but a pricing option whose price text
does not parse as a number makes the filter raise ValueError out of
`float(opt["Price"])` instead of excluding the option. -/
theorem c5_unknown_storage_ok_unparsable_price_raises :
    (∀ s, storage_match s = none → parse_storage_to_gb (.str s) = .ok none) ∧
    retrieve_info all_absent_query catBadPrice2 = .error .valueError := by
  constructor
  · intro s hm
    by_cases hs : s = ""
    · subst hs; rfl
    · have ht : truthy (.str s) = true := by simp [truthy, hs]
      simp [parse_storage_to_gb, ht, hm]
  · rfl

/-- C5 (witness). -/
theorem c5_unknown_storage_witness :
    parse_storage_to_gb (.str "many gigabytes") = .ok none :=
  c5_unknown_storage_ok_unparsable_price_raises.1 "many gigabytes" rfl

theorem filterByPlatform_error {platform : JVal} {l1 : List JVal} {p : JVal}
    {l2 : List JVal} {e : PyErr}
    (h1 : ∀ q ∈ l1, ∃ v, getItem q "Platform" = .ok v)
    (h2 : getItem p "Platform" = .error e) :
    filterByPlatform platform (l1 ++ p :: l2) = .error e := by
  induction l1 with
  | nil => simp only [List.nil_append, filterByPlatform, h2]
  | cons q qs ih =>
      obtain ⟨v, hv⟩ := h1 q (List.mem_cons_self q qs)
      have ih' := ih (fun r hr => h1 r (List.mem_cons_of_mem q hr))
      simp [filterByPlatform, hv, ih']

/-- C7 (amended): a missing required field is fatal only when the engine
actually reads it — when the query carries a platform filter, the platform
stage reads `p["Platform"]` on every record, so any record missing that
key makes `retrieve_info` raise (the first such record's KeyError
propagates to the caller); without such a read the malformed record is
silently tolerated (see the counterexample). -/
theorem c7_missing_platform_fatal_under_filter
    (parsed data platform pc sc feat : JVal) (l1 l2 : List JVal)
    (p : JVal) (e : PyErr)
    (hq : queryParts parsed = .ok (platform, pc, sc, feat))
    (hplat : truthy platform = true)
    (hd : asList data = .ok (l1 ++ p :: l2))
    (h1 : ∀ q ∈ l1, ∃ v, getItem q "Platform" = .ok v)
    (h2 : getItem p "Platform" = .error e) :
    retrieve_info parsed data = .error e := by
  have hsel : selectPlatforms platform (l1 ++ p :: l2) = .error e := by
    rw [selectPlatforms, hplat]
    exact filterByPlatform_error h1 h2
  simp only [retrieve_info, hq, hd, hsel]

/-- C7 (witness). -/
theorem c7_missing_platform_fatal_witness :
    retrieve_info queryPlatformAlpha (.list [recNoPlatform]) = .error .keyError :=
  c7_missing_platform_fatal_under_filter queryPlatformAlpha (.list [recNoPlatform])
    (.str "Alpha") (.dict [("min", .null), ("max", .null), ("cycle", .null)])
    (.dict [("min", .null), ("max", .null)]) .null [] [] recNoPlatform .keyError
    rfl rfl rfl (fun q hq => absurd hq (List.not_mem_nil q)) rfl

theorem decide_le_eq_not_decide_lt (m v : ℚ) :
    decide (m ≤ v) = !decide (v < m) := by
  by_cases h : v < m
  · simp [h, not_le.mpr h]
  · simp [h, not_lt.mp h]

/-- C9: storage normalization maps "2 TB" to 2048 GB and "500GB" to 500 GB,
yields unknown on "two terabytes"; and for every query whose Storage.min
and Storage.max entries are each independently None or a number — min set,
max set, or BOTH set (a range query) — the storage stage keeps a plan iff
its storage parsed to a value satisfying every set bound, and a plan with
unknown storage is kept only when neither bound is set. -/
theorem c9_storage_normalization :
    parse_storage_to_gb (.str "2 TB") = .ok (some 2048) ∧
    parse_storage_to_gb (.str "500GB") = .ok (some 500) ∧
    parse_storage_to_gb (.str "two terabytes") = .ok none ∧
    (∀ sc plan mn mx stJ st, truthy sc = true →
      dictGet sc "min" = .ok mn → dictGet sc "max" = .ok mx →
      (mn = .null ∨ ∃ m, mn = .num m) →
      (mx = .null ∨ ∃ m, mx = .num m) →
      dictGet plan "Storage" = .ok stJ → parse_storage_to_gb stJ = .ok st →
      storageStage sc plan =
        .ok (match st with
             | none => isNull mn && isNull mx
             | some v =>
                 (match mn with
                  | .num m => decide (m ≤ v)
                  | _ => true) &&
                 (match mx with
                  | .num m => decide (v ≤ m)
                  | _ => true))) := by
  refine ⟨rfl, rfl, rfl, ?_⟩
  intro sc plan mn mx stJ st hsc hmin hmax hmn hmx hstor hparse
  rcases hmn with rfl | ⟨m, rfl⟩ <;> rcases hmx with rfl | ⟨M, rfl⟩
  -- min absent, max absent
  · have hminPass : storageMinPass sc st = .ok true := by
      simp [storageMinPass, hmin, isNull]
    have hmaxPass : storageMaxPass sc st = .ok true := by
      simp [storageMaxPass, hmax, isNull]
    cases st with
    | none => simp [storageStage, hstor, hparse, hsc, hminPass, hmaxPass, isNull]
    | some v => simp [storageStage, hstor, hparse, hsc, hminPass, hmaxPass]
  -- min absent, max = M
  · have hmaxI : getItem sc "max" = .ok (.num M) :=
      getItem_of_dictGet_ne_null hmax rfl
    have hminPass : storageMinPass sc st = .ok true := by
      simp [storageMinPass, hmin, isNull]
    cases st with
    | none =>
        have hmaxPass : storageMaxPass sc none = .ok false := by
          simp [storageMaxPass, hmax, isNull]
        simp [storageStage, hstor, hparse, hsc, hminPass, hmaxPass, isNull]
    | some v =>
        have hmaxPass : storageMaxPass sc (some v) = .ok (!decide (M < v)) := by
          simp [storageMaxPass, hmax, isNull, hmaxI, pyGtQJ]
        show storageStage sc plan = .ok (true && decide (v ≤ M))
        rw [Bool.true_and, decide_le_eq_not_decide_lt]
        cases hlt : decide (M < v) with
        | true =>
            simp [storageStage, hstor, hparse, hsc, hminPass, hmaxPass, hlt]
        | false =>
            simp [storageStage, hstor, hparse, hsc, hminPass, hmaxPass, hlt]
  -- min = m, max absent
  · have hminI : getItem sc "min" = .ok (.num m) :=
      getItem_of_dictGet_ne_null hmin rfl
    cases st with
    | none =>
        have hminPass : storageMinPass sc none = .ok false := by
          simp [storageMinPass, hmin, isNull]
        simp [storageStage, hstor, hparse, hsc, hminPass, isNull]
    | some v =>
        have hminPass : storageMinPass sc (some v) = .ok (!decide (v < m)) := by
          simp [storageMinPass, hmin, isNull, hminI, pyLtQJ]
        have hmaxPass : storageMaxPass sc (some v) = .ok true := by
          simp [storageMaxPass, hmax, isNull]
        show storageStage sc plan = .ok (decide (m ≤ v) && true)
        rw [Bool.and_true, decide_le_eq_not_decide_lt]
        cases hlt : decide (v < m) with
        | true =>
            simp [storageStage, hstor, hparse, hsc, hminPass, hlt]
        | false =>
            simp [storageStage, hstor, hparse, hsc, hminPass, hlt, hmaxPass]
  -- min = m, max = M: the range query
  · have hminI : getItem sc "min" = .ok (.num m) :=
      getItem_of_dictGet_ne_null hmin rfl
    have hmaxI : getItem sc "max" = .ok (.num M) :=
      getItem_of_dictGet_ne_null hmax rfl
    cases st with
    | none =>
        have hminPass : storageMinPass sc none = .ok false := by
          simp [storageMinPass, hmin, isNull]
        simp [storageStage, hstor, hparse, hsc, hminPass, isNull]
    | some v =>
        have hminPass : storageMinPass sc (some v) = .ok (!decide (v < m)) := by
          simp [storageMinPass, hmin, isNull, hminI, pyLtQJ]
        have hmaxPass : storageMaxPass sc (some v) = .ok (!decide (M < v)) := by
          simp [storageMaxPass, hmax, isNull, hmaxI, pyGtQJ]
        show storageStage sc plan = .ok (decide (m ≤ v) && decide (v ≤ M))
        rw [decide_le_eq_not_decide_lt m v, decide_le_eq_not_decide_lt v M]
        cases hlt : decide (v < m) with
        | true =>
            simp [storageStage, hstor, hparse, hsc, hminPass, hlt]
        | false =>
            cases hgt : decide (M < v) with
            | true =>
                simp [storageStage, hstor, hparse, hsc, hminPass, hmaxPass,
                  hlt, hgt]
            | false =>
                simp [storageStage, hstor, hparse, hsc, hminPass, hmaxPass,
                  hlt, hgt]

theorem asDictListJ_filter (xs : List JVal) :
    asDictListJ (.list (xs.filter isDictB)) = asDictListJ (.list xs) := by
  simp [asDictListJ, List.filter_filter]

/-- C10: the three evaluator functions are total over every shape of the
retrieved argument (they are plain functions of the embedding — no error
monad).  A non-list retrieved value behaves exactly like the empty
retrieval for `detect_hallucination_from_answer` and
`completeness_fraction` (the latter returning 1), non-dict list elements
are dropped, and `retrieved_matches_expected` additionally wraps a single
dict into a one-element list while sending other non-lists to the empty
list. -/
theorem c10_retrieved_argument_normalization :
    (∀ ans, detect_hallucination_from_answer .null ans =
      detect_hallucination_from_answer (.list []) ans) ∧
    (∀ q ans, detect_hallucination_from_answer (.num q) ans =
      detect_hallucination_from_answer (.list []) ans) ∧
    (∀ s ans, detect_hallucination_from_answer (.str s) ans =
      detect_hallucination_from_answer (.list []) ans) ∧
    (∀ kvs ans, detect_hallucination_from_answer (.dict kvs) ans =
      detect_hallucination_from_answer (.list []) ans) ∧
    (∀ xs ans, detect_hallucination_from_answer (.list xs) ans =
      detect_hallucination_from_answer (.list (xs.filter isDictB)) ans) ∧
    (∀ ans, completeness_fraction .null ans = 1) ∧
    (∀ q ans, completeness_fraction (.num q) ans = 1) ∧
    (∀ s ans, completeness_fraction (.str s) ans = 1) ∧
    (∀ kvs ans, completeness_fraction (.dict kvs) ans = 1) ∧
    (∀ xs ans, completeness_fraction (.list xs) ans =
      completeness_fraction (.list (xs.filter isDictB)) ans) ∧
    (∀ exp kvs, retrieved_matches_expected exp (.dict kvs) =
      retrieved_matches_expected exp (.list [.dict kvs])) ∧
    (∀ exp, retrieved_matches_expected exp .null =
      retrieved_matches_expected exp (.list [])) ∧
    (∀ exp q, retrieved_matches_expected exp (.num q) =
      retrieved_matches_expected exp (.list [])) ∧
    (∀ exp s, retrieved_matches_expected exp (.str s) =
      retrieved_matches_expected exp (.list [])) := by
  refine ⟨fun ans => rfl, fun q ans => rfl, fun s ans => rfl, fun kvs ans => rfl,
          ?_, fun ans => rfl, fun q ans => rfl, fun s ans => rfl, fun kvs ans => rfl,
          ?_, fun exp kvs => rfl, fun exp => rfl, fun exp q => rfl, fun exp s => rfl⟩
  · intro xs ans
    unfold detect_hallucination_from_answer
    rw [asDictListJ_filter]
  · intro xs ans
    unfold completeness_fraction
    rw [asDictListJ_filter]

theorem cycleSkip_ok_dict {pc cycle : JVal} {b : Bool}
    (h : cycleSkip pc cycle = .ok b) : ∃ kvs, pc = .dict kvs := by
  cases pc with
  | dict kvs => exact ⟨kvs, rfl⟩
  | null => simp [cycleSkip, dictGet] at h
  | num q => simp [cycleSkip, dictGet] at h
  | str s => simp [cycleSkip, dictGet] at h
  | list xs => simp [cycleSkip, dictGet] at h

theorem validLoop_cons_pc_dict {pc opt : JVal} {rest : List JVal}
    {v : List JVal} (h : validPricingLoop pc (opt :: rest) = .ok v) :
    ∃ kvs, pc = .dict kvs := by
  rw [validPricingLoop] at h
  cases h1 : getItem opt "Price" with
  | error e => simp only [h1] at h; cases h
  | ok priceJ =>
      simp only [h1] at h
      cases h2 : pyFloat priceJ with
      | error e => simp only [h2] at h; cases h
      | ok price =>
          simp only [h2] at h
          cases h3 : dictGet opt "PlanType" with
          | error e => simp only [h3] at h; cases h
          | ok cycle =>
              simp only [h3] at h
              cases h4 : cycleSkip pc cycle with
              | error e => simp only [h4] at h; cases h
              | ok b => exact cycleSkip_ok_dict h4

theorem noPriceCond_dict {kvs : List (String × JVal)}
    (h : noPriceCond (.dict kvs) = true) :
    truthy (lookupD kvs "cycle" .null) = false ∧
    isNull (lookupD kvs "min" .null) = true ∧
    isNull (lookupD kvs "max" .null) = true := by
  simp only [noPriceCond, Bool.and_eq_true, Bool.not_eq_true'] at h
  exact ⟨h.1.1, h.1.2, h.2⟩

/-- With no supplied price condition every pricing option survives the
price filter. -/
theorem validLoop_noCond {pc : JVal} {opts valid : List JVal}
    (hnc : noPriceCond pc = true)
    (h : validPricingLoop pc opts = .ok valid) : valid = opts := by
  induction opts generalizing valid with
  | nil =>
      rw [validPricingLoop] at h
      simp only [Except.ok.injEq] at h
      exact h.symm
  | cons opt rest ih =>
      obtain ⟨kvs, rfl⟩ := validLoop_cons_pc_dict h
      obtain ⟨hc, hm, hx⟩ := noPriceCond_dict hnc
      have hcy : cycleSkip (.dict kvs) (JVal.null) = .ok false := by
        simp [cycleSkip, dictGet, hc]
      rw [validPricingLoop] at h
      cases h1 : getItem opt "Price" with
      | error e => simp only [h1] at h; cases h
      | ok priceJ =>
          simp only [h1] at h
          cases h2 : pyFloat priceJ with
          | error e => simp only [h2] at h; cases h
          | ok price =>
              simp only [h2] at h
              cases h3 : dictGet opt "PlanType" with
              | error e => simp only [h3] at h; cases h
              | ok cycle =>
                  simp only [h3] at h
                  have h4 : cycleSkip (.dict kvs) cycle = .ok false := by
                    simp [cycleSkip, dictGet, hc]
                  simp only [h4] at h
                  have h5 : minSkip (.dict kvs) price = .ok false := by
                    simp [minSkip, dictGet, hm]
                  simp only [h5] at h
                  have h6 : maxSkip (.dict kvs) price = .ok false := by
                    simp [maxSkip, dictGet, hx]
                  simp only [h6] at h
                  cases h7 : validPricingLoop (.dict kvs) rest with
                  | error e => simp only [h7] at h; cases h
                  | ok v' =>
                      simp only [h7, Except.ok.injEq] at h
                      rw [← h, ih h7]

theorem pyMinByPrice_spec {l : List JVal} {best : JVal}
    (h : pyMinByPrice l = .ok best) :
    best ∈ l ∧ ∃ qb, keyOfOpt best = .ok qb ∧
      ∀ o ∈ l, ∃ qo, keyOfOpt o = .ok qo ∧ qb ≤ qo := by
  rw [pyMinByPrice] at h
  cases hk : keyed keyOfOpt l with
  | error e => simp only [hk] at h; cases h
  | ok ks =>
      simp only [hk] at h
      cases ks with
      | nil => simp at h
      | cons k ks' =>
          simp only [Except.ok.injEq] at h
          have hmemAll : minFold k ks' ∈ k :: ks' := by
            rcases minFold_mem k ks' with he | hm
            · rw [he]; exact List.mem_cons_self _ _
            · exact List.mem_cons_of_mem _ hm
          obtain ⟨hmL, hkey⟩ := keyed_mem_of_ok hk _ hmemAll
          subst h
          refine ⟨hmL, (minFold k ks').1, hkey, ?_⟩
          intro o ho
          obtain ⟨qo, hqo, hmemo⟩ := keyed_forall_of_ok hk o ho
          refine ⟨qo, hqo, ?_⟩
          obtain ⟨hle1, hle2⟩ := minFold_le k ks'
          rcases List.mem_cons.mp hmemo with he | hm
          · have : k.1 = qo := by rw [← he]
            rw [← this]; exact hle1
          · exact hle2 _ hm

/-- C2: whenever a plan survives the price stage with representative
option `best`, that representative is Python's `min` of the survivor list
`valid`: it belongs to `valid` and its parsed price is a lower bound of
every survivor's price; and when no price condition was supplied the
survivor list is the plan's whole pricing-option list, so `best` is the
plan's cheapest option overall.  The first-listed-option fallback is
unreachable when a representative is produced. -/
theorem c2_representative_is_min (pc plan : JVal) (best : JVal)
    (h : priceStage pc plan = .ok (some best)) :
    ∃ optsJ opts valid,
      dictGetD plan "PricingOptions" (.list []) = .ok optsJ ∧
      asList optsJ = .ok opts ∧
      validPricingLoop pc opts = .ok valid ∧
      valid ≠ [] ∧ pyMinByPrice valid = .ok best ∧
      best ∈ valid ∧
      (∃ qb, keyOfOpt best = .ok qb ∧
        ∀ o ∈ valid, ∃ qo, keyOfOpt o = .ok qo ∧ qb ≤ qo) ∧
      (noPriceCond pc = true → valid = opts) := by
  rw [priceStage] at h
  cases h1 : dictGetD plan "PricingOptions" (.list []) with
  | error e => simp only [h1] at h; cases h
  | ok optsJ =>
      simp only [h1] at h
      cases h2 : asList optsJ with
      | error e => simp only [h2] at h; cases h
      | ok opts =>
          simp only [h2] at h
          cases h3 : validPricingLoop pc opts with
          | error e => simp only [h3] at h; cases h
          | ok valid =>
              simp only [h3] at h
              by_cases hguard : (truthy pc && valid.isEmpty) = true
              · rw [if_pos hguard] at h; simp at h
              · rw [if_neg hguard] at h
                by_cases hne : (!valid.isEmpty) = true
                · rw [if_pos hne] at h
                  cases h4 : pyMinByPrice valid with
                  | error e => simp only [h4] at h; cases h
                  | ok b =>
                      simp only [h4, Except.ok.injEq, Option.some.injEq] at h
                      subst h
                      obtain ⟨hmem, qb, hqb, hmin⟩ := pyMinByPrice_spec h4
                      refine ⟨optsJ, opts, valid, rfl, h2, h3, ?_, h4, hmem,
                        ⟨qb, hqb, hmin⟩, fun hnc => validLoop_noCond hnc h3⟩
                      intro hv
                      rw [hv] at hne
                      simp at hne
                -- fallback branch: impossible with a produced representative
                · exfalso
                  rw [if_neg hne] at h
                  have hvempty : valid = [] := by
                    cases valid with
                    | nil => rfl
                    | cons a as => simp at hne
                  have hpcf : truthy pc = false := by
                    cases htr : truthy pc with
                    | false => rfl
                    | true => rw [htr, hvempty] at hguard; simp at hguard
                  subst hvempty
                  -- the survivor list is empty, so (with a falsy condition)
                  -- the option list itself is empty and indexing raises
                  have hopts : opts = [] := by
                    cases opts with
                    | nil => rfl
                    | cons o os =>
                        obtain ⟨kvs, rfl⟩ := validLoop_cons_pc_dict h3
                        have hkvs : kvs = [] := by
                          cases kvs with
                          | nil => rfl
                          | cons kv kvl => simp [truthy] at hpcf
                        subst hkvs
                        have : ([] : List JVal) = o :: os :=
                          validLoop_noCond (by simp [noPriceCond, lookupD, lookup?, truthy, isNull]) h3
                        cases this
                  subst hopts
                  -- dictGetD returned optsJ with asList optsJ = .ok [],
                  -- so plan["PricingOptions"][0] cannot succeed
                  cases plan with
                  | dict pkvs =>
                      simp only [dictGetD, Except.ok.injEq] at h1
                      cases hl : lookup? pkvs "PricingOptions" with
                      | some w =>
                          have hw : w = optsJ := by
                            rw [← h1]; simp [lookupD, hl]
                          have : getItem (.dict pkvs) "PricingOptions" = .ok optsJ := by
                            simp [getItem, hl, hw]
                          rw [this] at h
                          have : optsJ = .list [] := by
                            cases optsJ with
                            | list xs =>
                                simp only [asList, Except.ok.injEq] at h2
                                rw [h2]
                            | null => simp [asList] at h2
                            | num q => simp [asList] at h2
                            | str s => simp [asList] at h2
                            | dict kvs => simp [asList] at h2
                          rw [this] at h
                          simp [pyIndex0] at h
                      | none =>
                          have : getItem (.dict pkvs) "PricingOptions" = .error .keyError := by
                            simp [getItem, hl]
                          rw [this] at h
                          simp at h
                  | null => simp [dictGetD] at h1
                  | num q => simp [dictGetD] at h1
                  | str s => simp [dictGetD] at h1
                  | list xs => simp [dictGetD] at h1

/-- C2 (witness): a plan with three options under the price condition
`cycle = Monthly, max = 5` — the representative is the cheaper Monthly
survivor at $4.99. -/
theorem c2_representative_is_min_witness :
    ∃ optsJ opts valid,
      dictGetD (mkPlanF "M" "1 GB"
          [mkOptF "9.99" "Monthly", mkOptF "4.99" "Monthly", mkOptF "2.99" "Annual"])
        "PricingOptions" (.list []) = .ok optsJ ∧
      asList optsJ = .ok opts ∧
      validPricingLoop (.dict [("min", .null), ("max", .num 5), ("cycle", .str "Monthly")])
        opts = .ok valid ∧
      valid ≠ [] ∧
      pyMinByPrice valid = .ok (mkOptF "4.99" "Monthly") ∧
      mkOptF "4.99" "Monthly" ∈ valid ∧
      (∃ qb, keyOfOpt (mkOptF "4.99" "Monthly") = .ok qb ∧
        ∀ o ∈ valid, ∃ qo, keyOfOpt o = .ok qo ∧ qb ≤ qo) ∧
      (noPriceCond (.dict [("min", .null), ("max", .num 5), ("cycle", .str "Monthly")]) = true →
        valid = opts) :=
  c2_representative_is_min
    (.dict [("min", .null), ("max", .num 5), ("cycle", .str "Monthly")])
    (mkPlanF "M" "1 GB"
      [mkOptF "9.99" "Monthly", mkOptF "4.99" "Monthly", mkOptF "2.99" "Annual"])
    (mkOptF "4.99" "Monthly") rfl

/-- C8: when `retrieve_info` returns a result, that result is built from
the candidate whose key list entry sits at the FIRST index attaining the
minimal representative price — every candidate's price is at least `key`
and every strictly earlier candidate (in catalog traversal order, in which
`collectCandidates` emits the triples) is strictly more expensive; and
when no triple survives the engine returns none.  The stable sort plus
`candidates[0]` is exactly this leftmost-minimum selection, giving the
first-platform tie-break (see the witness on the $9.99/$9.99 tie). -/
theorem c8_selection_first_min :
    (∀ parsed data res, retrieve_info parsed data = .ok (some res) →
      ∃ platform pc sc feat dataL platforms cands kc i key pn plan opt,
        queryParts parsed = .ok (platform, pc, sc, feat) ∧
        asList data = .ok dataL ∧
        selectPlatforms platform dataL = .ok platforms ∧
        collectCandidates pc sc feat platforms = .ok cands ∧
        cands ≠ [] ∧
        keyed keyOfCand cands = .ok kc ∧
        kc.get? i = some (key, (pn, plan, opt)) ∧
        (∀ j x, kc.get? j = some x → key ≤ x.1) ∧
        (∀ j x, j < i → kc.get? j = some x → key < x.1) ∧
        mkResult feat pn plan opt = .ok res) ∧
    (∀ parsed data platform pc sc feat dataL platforms,
      queryParts parsed = .ok (platform, pc, sc, feat) →
      asList data = .ok dataL →
      selectPlatforms platform dataL = .ok platforms →
      collectCandidates pc sc feat platforms = .ok [] →
      retrieve_info parsed data = .ok none) := by
  constructor
  · intro parsed data res h
    rw [retrieve_info] at h
    cases hq : queryParts parsed with
    | error e => simp only [hq] at h; cases h
    | ok tup =>
        obtain ⟨platform, pc, sc, feat⟩ := tup
        simp only [hq] at h
        cases hd : asList data with
        | error e => simp only [hd] at h; cases h
        | ok dataL =>
            simp only [hd] at h
            cases hs : selectPlatforms platform dataL with
            | error e => simp only [hs] at h; cases h
            | ok platforms =>
                simp only [hs] at h
                cases hc : collectCandidates pc sc feat platforms with
                | error e => simp only [hc] at h; cases h
                | ok cands =>
                    simp only [hc] at h
                    by_cases hemp : cands.isEmpty = true
                    · rw [if_pos hemp] at h; simp at h
                    · rw [if_neg hemp] at h
                      cases hk : keyed keyOfCand cands with
                      | error e => simp only [hk] at h; cases h
                      | ok kc =>
                          simp only [hk] at h
                          cases hsort : stableSort kc with
                          | nil => simp only [hsort] at h; cases h
                          | cons y rest =>
                              obtain ⟨key, pn, plan, opt⟩ := y
                              simp only [hsort] at h
                              obtain ⟨i, hget, hle, hlt⟩ := stableSort_head_min hsort
                              cases hr : mkResult feat pn plan opt with
                              | error e => simp only [hr] at h; cases h
                              | ok r =>
                                  simp only [hr, Except.ok.injEq,
                                    Option.some.injEq] at h
                                  subst h
                                  refine ⟨platform, pc, sc, feat, dataL, platforms,
                                    cands, kc, i, key, pn, plan, opt, rfl, rfl, hs, hc,
                                    ?_, hk, hget, hle, hlt, hr⟩
                                  intro hnil
                                  rw [hnil] at hemp
                                  exact hemp rfl
  · intro parsed data platform pc sc feat dataL platforms hq hd hs hc
    simp only [retrieve_info, hq, hd, hs, hc, List.isEmpty_nil, if_true]

/-- C8 (witness): the spec's tie-break scenario — two platforms priced
identically at $9.99, the first platform in catalog order wins. -/
theorem c8_selection_first_min_witness :
    ∃ platform pc sc feat dataL platforms cands kc i key pn plan opt,
      queryParts all_absent_query = .ok (platform, pc, sc, feat) ∧
      asList catTie = .ok dataL ∧
      selectPlatforms platform dataL = .ok platforms ∧
      collectCandidates pc sc feat platforms = .ok cands ∧
      cands ≠ [] ∧
      keyed keyOfCand cands = .ok kc ∧
      kc.get? i = some (key, (pn, plan, opt)) ∧
      (∀ j x, kc.get? j = some x → key ≤ x.1) ∧
      (∀ j x, j < i → kc.get? j = some x → key < x.1) ∧
      mkResult feat pn plan opt = .ok resTie :=
  c8_selection_first_min.1 all_absent_query catTie resTie rfl

/-- C9 (witness): a range query with BOTH storage bounds set, satisfied by
the plan's 2048 GB. -/
theorem c9_storage_normalization_witness :
    parse_storage_to_gb (.str "2 TB") = .ok (some 2048) ∧
    storageStage (.dict [("min", .num 100), ("max", .num 4000)])
      (mkPlanF "B" "2TB" []) = .ok true := by
  refine ⟨c9_storage_normalization.1, ?_⟩
  have h := c9_storage_normalization.2.2.2
    (.dict [("min", .num 100), ("max", .num 4000)]) (mkPlanF "B" "2TB" [])
    (.num 100) (.num 4000) (.str "2TB") (some 2048) rfl rfl rfl
    (Or.inr ⟨100, rfl⟩) (Or.inr ⟨4000, rfl⟩) rfl rfl
  rw [h]
  rfl

/-! ### Well-formed catalogs never make the all-absent query raise (C6) -/

theorem wfOpt_parts {o : JVal} (h : wfOpt o = true) :
    (∃ q, keyOfOpt o = .ok q) ∧ ∃ pt, getItem o "PlanType" = .ok pt := by
  rw [wfOpt, Bool.and_eq_true] at h
  exact ⟨exIsOk_iff.mp h.1, exIsOk_iff.mp h.2⟩

theorem keyOfOpt_inv {o : JVal} {q : ℚ} (h : keyOfOpt o = .ok q) :
    ∃ pj, getItem o "Price" = .ok pj ∧ pyFloat pj = .ok q := by
  rw [keyOfOpt] at h
  cases h1 : getItem o "Price" with
  | error e => rw [h1] at h; cases h
  | ok pj => rw [h1] at h; exact ⟨pj, rfl, h⟩

theorem wfPlan_parts {pl : JVal} (h : wfPlan pl = true) :
    (∃ nm, getItem pl "PlanName" = .ok nm) ∧
    (∃ stJ st, getItem pl "Storage" = .ok stJ ∧
      parse_storage_to_gb stJ = .ok st) ∧
    ∃ opts, getItem pl "PricingOptions" = .ok (.list opts) ∧
      opts.all wfOpt = true := by
  rw [wfPlan] at h
  simp only [Bool.and_eq_true] at h
  obtain ⟨⟨h1, h2⟩, h3⟩ := h
  refine ⟨exIsOk_iff.mp h1, ?_, ?_⟩
  · cases hst : getItem pl "Storage" with
    | error e => rw [hst] at h2; cases h2
    | ok stJ =>
        rw [hst] at h2
        obtain ⟨st, hp⟩ := exIsOk_iff.mp h2
        exact ⟨stJ, st, rfl, hp⟩
  · cases hpo : getItem pl "PricingOptions" with
    | error e => rw [hpo] at h3; cases h3
    | ok v =>
        rw [hpo] at h3
        cases v with
        | list opts => exact ⟨opts, rfl, h3⟩
        | null => cases h3
        | num q => cases h3
        | str s => cases h3
        | dict kvs => cases h3

theorem wfPlatformRec_parts {p : JVal} (h : wfPlatformRec p = true) :
    (∃ pn, getItem p "Platform" = .ok pn) ∧
    ∃ pls, getItem p "Plans" = .ok (.list pls) ∧ pls.all wfPlan = true := by
  rw [wfPlatformRec, Bool.and_eq_true] at h
  obtain ⟨h1, h2⟩ := h
  refine ⟨exIsOk_iff.mp h1, ?_⟩
  cases hpl : getItem p "Plans" with
  | error e => rw [hpl] at h2; cases h2
  | ok v =>
      rw [hpl] at h2
      cases v with
      | list pls => exact ⟨pls, rfl, h2⟩
      | null => cases h2
      | num q => cases h2
      | str s => cases h2
      | dict kvs => cases h2

/-- With the all-absent price condition every well-formed option passes
the price filter. -/
theorem validLoop_allAbsent {opts : List JVal} (h : opts.all wfOpt = true) :
    validPricingLoop pcAbsent opts = .ok opts := by
  induction opts with
  | nil => rfl
  | cons o os ih =>
      simp only [List.all_cons, Bool.and_eq_true] at h
      obtain ⟨ho, hos⟩ := h
      obtain ⟨⟨q, hq⟩, ⟨pt, hpt⟩⟩ := wfOpt_parts ho
      obtain ⟨pj, hpj, hf⟩ := keyOfOpt_inv hq
      have hcs : cycleSkip pcAbsent pt = .ok false := rfl
      have hms : minSkip pcAbsent q = .ok false := rfl
      have hxs : maxSkip pcAbsent q = .ok false := rfl
      simp only [validPricingLoop, hpj, hf, dictGet_of_getItem hpt,
        hcs, hms, hxs, ih hos]

theorem storageStage_allAbsent {pl stJ : JVal} {st : Option ℚ}
    (h1 : getItem pl "Storage" = .ok stJ)
    (h2 : parse_storage_to_gb stJ = .ok st) :
    storageStage scAbsent pl = .ok true := by
  have hmin : storageMinPass scAbsent st = .ok true := rfl
  have hmax : storageMaxPass scAbsent st = .ok true := rfl
  have htr : truthy scAbsent = true := rfl
  simp only [storageStage, dictGet_of_getItem h1, h2, htr, hmin, hmax, if_true]

theorem pyMinByPrice_exists {l : List JVal}
    (h : ∀ o ∈ l, ∃ q, keyOfOpt o = .ok q) (hne : l ≠ []) :
    ∃ b, pyMinByPrice l = .ok b := by
  obtain ⟨ks, hks⟩ := keyed_ok_of_forall h
  cases l with
  | nil => exact absurd rfl hne
  | cons x xs =>
      obtain ⟨q, ks', rfl⟩ := keyed_cons_shape hks
      rw [pyMinByPrice, hks]
      exact ⟨_, rfl⟩

theorem priceStage_allAbsent {pl : JVal} {opts : List JVal}
    (hopts : getItem pl "PricingOptions" = .ok (.list opts))
    (hall : opts.all wfOpt = true) :
    priceStage pcAbsent pl = .ok none ∨
    ∃ best, priceStage pcAbsent pl = .ok (some best) ∧ best ∈ opts := by
  have hD : dictGetD pl "PricingOptions" (.list []) = .ok (.list opts) :=
    dictGetD_of_getItem hopts
  have hV := validLoop_allAbsent hall
  cases opts with
  | nil =>
      left
      simp only [priceStage, hD, asList, hV]
      rfl
  | cons o os =>
      right
      have hkeys : ∀ x ∈ o :: os, ∃ q, keyOfOpt x = .ok q := by
        intro x hx
        have hwx : wfOpt x = true := by
          rw [List.all_eq_true] at hall
          exact hall x hx
        exact (wfOpt_parts hwx).1
      obtain ⟨b, hb⟩ := pyMinByPrice_exists hkeys (by simp)
      have hbmem : b ∈ o :: os := (pyMinByPrice_spec hb).1
      refine ⟨b, ?_, hbmem⟩
      simp only [priceStage, hD, asList, hV, hb]
      rfl

theorem processPlan_allAbsent {p pl pn : JVal} (hwf : wfPlan pl = true)
    (hpn : getItem p "Platform" = .ok pn) :
    processPlan pcAbsent scAbsent .null p pl = .ok none ∨
    ∃ best, processPlan pcAbsent scAbsent .null p pl =
      .ok (some (pn, pl, best)) ∧ wfOpt best = true := by
  obtain ⟨⟨nm, hnm⟩, ⟨stJ, st, hstJ, hst⟩, ⟨opts, hopts, hall⟩⟩ := wfPlan_parts hwf
  have hss := storageStage_allAbsent hstJ hst
  have hfs : featureStage .null pl = .ok true := rfl
  rcases priceStage_allAbsent hopts hall with hps | ⟨best, hps, hmem⟩
  · left
    simp only [processPlan, hss, hfs, hps]
  · right
    refine ⟨best, ?_, ?_⟩
    · simp only [processPlan, hss, hfs, hps, hpn]
    · rw [List.all_eq_true] at hall
      exact hall best hmem

theorem plansLoop_allAbsent {p pn : JVal} (hpn : getItem p "Platform" = .ok pn)
    {pls : List JVal} (h : pls.all wfPlan = true) :
    ∃ cs, plansLoop pcAbsent scAbsent .null p pls = .ok cs ∧
      ∀ c ∈ cs, wfPlan c.2.1 = true ∧ wfOpt c.2.2 = true := by
  induction pls with
  | nil => exact ⟨[], rfl, fun c hc => absurd hc (List.not_mem_nil c)⟩
  | cons pl rest ih =>
      simp only [List.all_cons, Bool.and_eq_true] at h
      obtain ⟨hpl, hrest⟩ := h
      obtain ⟨cs, hcs, hprop⟩ := ih hrest
      rcases processPlan_allAbsent hpl hpn with hnone | ⟨best, hsome, hbw⟩
      · exact ⟨cs, by simp only [plansLoop, hnone, hcs], hprop⟩
      · refine ⟨(pn, pl, best) :: cs, by simp only [plansLoop, hsome, hcs], ?_⟩
        intro c hc
        rcases List.mem_cons.mp hc with rfl | hc'
        · exact ⟨hpl, hbw⟩
        · exact hprop c hc'

theorem collect_allAbsent {ps : List JVal} (h : ps.all wfPlatformRec = true) :
    ∃ cands, collectCandidates pcAbsent scAbsent .null ps = .ok cands ∧
      ∀ c ∈ cands, wfPlan c.2.1 = true ∧ wfOpt c.2.2 = true := by
  induction ps with
  | nil => exact ⟨[], rfl, fun c hc => absurd hc (List.not_mem_nil c)⟩
  | cons p rest ih =>
      simp only [List.all_cons, Bool.and_eq_true] at h
      obtain ⟨hp, hrest⟩ := h
      obtain ⟨⟨pn, hpn⟩, pls, hpls, hplw⟩ := wfPlatformRec_parts hp
      obtain ⟨cs, hcs, hcprop⟩ := plansLoop_allAbsent hpn hplw
      obtain ⟨more, hmore, hmprop⟩ := ih hrest
      refine ⟨cs ++ more,
        by simp only [collectCandidates, hpls, asList, hcs, hmore], ?_⟩
      intro c hc
      rcases List.mem_append.mp hc with hc' | hc'
      · exact hcprop c hc'
      · exact hmprop c hc'

theorem mkResult_ok {feat pn pl opt : JVal}
    (hwfp : wfPlan pl = true) (hwfo : wfOpt opt = true) :
    ∃ r, mkResult feat pn pl opt = .ok r := by
  obtain ⟨⟨nm, hnm⟩, ⟨stJ, st, hstJ, hst⟩, _⟩ := wfPlan_parts hwfp
  obtain ⟨⟨q, hq⟩, ⟨pt, hpt⟩⟩ := wfOpt_parts hwfo
  obtain ⟨pj, hpj, hf⟩ := keyOfOpt_inv hq
  refine ⟨.dict [("Platform", pn), ("PlanName", nm), ("Price", .num q),
    ("PlanType", pt), ("Storage", stJ), ("FeatureMatch", feat)], ?_⟩
  simp only [mkResult, hnm, hpj, hf, hpt, hstJ]

/-- C6 (amended): only a payload whose JSON decoding fails degrades to the
all-absent query; on the all-absent query the engine never raises over any
well-formed catalog (it returns none or a result); but a JSON-decodable
payload that violates the StructuredQuery schema is passed through
unchanged and makes the engine raise (AttributeError on the number 5). -/
theorem c6_decode_fallback_and_safety :
    (∀ e, parse_with_llm_post (.error e) = all_absent_query) ∧
    (∀ data, wfCatalog data = true →
      ∃ r, retrieve_info all_absent_query data = .ok r) ∧
    retrieve_info (parse_with_llm_post (.ok (.num 5))) catBadPrice =
      .error .attributeError := by
  refine ⟨fun e => rfl, ?_, rfl⟩
  intro data hwf
  rw [wfCatalog] at hwf
  cases hd : asList data with
  | error e => rw [hd] at hwf; cases hwf
  | ok ps =>
      rw [hd] at hwf
      obtain ⟨cands, hcands, hprop⟩ := collect_allAbsent hwf
      have hq : queryParts all_absent_query =
          .ok (.null, pcAbsent, scAbsent, .null) := rfl
      have hsel : selectPlatforms .null ps = .ok ps := rfl
      by_cases hemp : cands.isEmpty = true
      · refine ⟨none, ?_⟩
        simp [retrieve_info, hq, hd, hsel, hcands, hemp]
      · have hkeys : ∀ c ∈ cands, ∃ q, keyOfCand c = .ok q := by
          intro c hc
          exact (wfOpt_parts (hprop c hc).2).1
        obtain ⟨kc, hkc⟩ := keyed_ok_of_forall hkeys
        cases hsort : stableSort kc with
        | nil =>
            exfalso
            have : kc = [] := stableSort_eq_nil hsort
            subst this
            cases cands with
            | nil => exact hemp rfl
            | cons c cs =>
                obtain ⟨q, ks', hshape⟩ := keyed_cons_shape hkc
                cases hshape
        | cons y rest =>
            obtain ⟨key, pn, pl, opt⟩ := y
            have hymem : ((key, pn, pl, opt) : ℚ × JVal × JVal × JVal) ∈ kc := by
              apply stableSort_mem
              rw [hsort]
              exact List.mem_cons_self _ _
            obtain ⟨hcmem, _⟩ := keyed_mem_of_ok hkc _ hymem
            obtain ⟨hwfpl, hwfopt⟩ := hprop _ hcmem
            obtain ⟨r, hr⟩ := @mkResult_ok JVal.null pn _ _ hwfpl hwfopt
            refine ⟨some r, ?_⟩
            have hemp' : cands.isEmpty = false := by
              cases he : cands.isEmpty with
              | true => exact absurd he hemp
              | false => rfl
            simp [retrieve_info, hq, hd, hsel, hcands, hemp', hkc, hsort, hr]

/-- C6 (witness). -/
theorem c6_decode_fallback_and_safety_witness :
    parse_with_llm_post (.error .decodeError) = all_absent_query ∧
    ∃ r, retrieve_info all_absent_query catTie = .ok r :=
  ⟨c6_decode_fallback_and_safety.1 .decodeError,
   c6_decode_fallback_and_safety.2.1 catTie rfl⟩

end RagQA
